import Mathlib

/-!
Verification of the edyn island-worker and networking cores.

This file shallowly embeds the parts of the edyn physics engine that the
claims C1..C10 are about, translated from the C++ sources:

* `src/edyn/parallel/island_worker.cpp` (island worker: `finish_step`,
  `sync`, `sync_dirty`, destruction observers, `on_wake_up_island`,
  `should_split`),
* `src/edyn/networking/sys/server_side.cpp` (island ownership,
  `is_fully_owned_by_client`, `maybe_publish_client_transient_snapshot`),
* `src/edyn/networking/sys/client_side.cpp` (transient-snapshot processing
  with extrapolation),
* `include/edyn/networking/packet/destroy_entity.hpp`,
* `include/edyn/comp/continuous.hpp`.

Entities are modelled as naturals, component type ids as naturals, and the
C++ `double` scalars as rationals.  Registries are modelled as association
lists in view-iteration order.
-/

namespace Edyn

/-- Entity handles (`entt::entity`) are opaque ids; modelled as naturals. -/
abbrev Entity := Nat

/-- Component type ids (indices into the registered component list). -/
abbrev CompId := Nat

/-! Section: the `continuous` component (include/edyn/comp/continuous.hpp) -/

/-- The `continuous` component: a fixed array of `max_size = 16` component
type indices together with a live-entry counter `size`.  The C++ member
`std::array<size_t, 16> indices` is modelled as a `List Nat` (intended
length 16); the live entries are the first `size` ones. -/
structure continuous where
  indices : List Nat
  size : Nat
deriving DecidableEq, Repr

/-- Constant `continuous::max_size`. -/
def continuous.max_size : Nat := 16

/-- Method `continuous::insert(index)`: `indices[size++] = index;
EDYN_ASSERT(size <= max_size);`.  The write `indices[size] = index` is
modelled with `List.set`, which writes at position `size` when it is within
the array and is the identity otherwise (in C++ the out-of-bounds write is
undefined behaviour); the increment of `size` happens unconditionally. -/
def continuous.insert (c : continuous) (index : Nat) : continuous :=
  { indices := c.indices.set c.size index, size := c.size + 1 }

/-- Method `continuous::remove(index)`: scans the first `size` entries and, at the
first `i` with `indices[i] == index`, performs `indices[i] = indices[--size]`
and breaks; if no entry matches, nothing changes. -/
def continuous.remove (c : continuous) (index : Nat) : continuous :=
  match (List.range c.size).find? (fun i => c.indices.getD i 0 == index) with
  | none => c
  | some i =>
      { indices := c.indices.set i (c.indices.getD (c.size - 1) 0),
        size := c.size - 1 }

/-! Section: the `finish_step` island-time update (island_worker.cpp, lines 586-607) -/

/-- The update of `island_timestamp` performed by
`island_worker::finish_step`: with `dt = m_step_start_time - isle_time.value`
and `num_steps = floor(dt / fixed_dt)`, if `num_steps > 10` the timestamp is
set to `m_step_start_time - (remainder + 10 * fixed_dt)` where
`remainder = dt - num_steps * fixed_dt`; otherwise `fixed_dt` is added. -/
def finish_step_island_time (isle_time step_start_time fixed_dt : ℚ) : ℚ :=
  let dt := step_start_time - isle_time
  let max_lagging_steps : ℤ := 10
  let num_steps : ℤ := ⌊dt / fixed_dt⌋
  if num_steps > max_lagging_steps then
    let remainder := dt - (num_steps : ℚ) * fixed_dt
    step_start_time - (remainder + (max_lagging_steps : ℚ) * fixed_dt)
  else
    isle_time + fixed_dt

/-! Section: `packet::destroy_entity` (include/edyn/networking/packet/destroy_entity.hpp) -/

namespace packet

/-- Packet `packet::destroy_entity` exactly as the header defines it: the struct
has a single member `std::vector<entt::entity> entities` and no timestamp
member. -/
structure destroy_entity where
  entities : List Entity
deriving DecidableEq, Repr

end packet

/-- Function `serialize(Archive&, destroy_entity&)`: archives only `packet.entities`.
The archive is modelled as a flat list of naturals; serializing a vector
writes its length followed by its elements. -/
def serialize_destroy_entity (p : packet.destroy_entity) : List Nat :=
  p.entities.length :: p.entities

/-- Deserialization of the wire form produced by `serialize_destroy_entity`. -/
def deserialize_destroy_entity (data : List Nat) : Option packet.destroy_entity :=
  match data with
  | [] => none
  | n :: rest => if rest.length = n then some ⟨rest⟩ else none

/-! Section: island-delta entries and the worker registry

The `island_delta_builder` records per-entity creation, update and
destruction events; an entry is modelled by the entity it concerns and,
for component events, the component type id. -/

/-- One entry recorded in the island delta builder. -/
inductive delta_entry
  | created_entity (entity : Entity)
  | created_comp (entity : Entity) (comp : CompId)
  | updated_comp (entity : Entity) (comp : CompId)
  | destroyed_entity (entity : Entity)
  | destroyed_comp (entity : Entity) (comp : CompId)
deriving DecidableEq, Repr

/-- Model type id for the `AABB` component. -/
def aabb_id : CompId := 100

/-- Model type id for the `contact_manifold` component. -/
def contact_manifold_id : CompId := 101

/-- Model type id for the `island_timestamp` component. -/
def island_timestamp_id : CompId := 102

/-- Model type id for the `sleeping_tag` component. -/
def sleeping_tag_id : CompId := 103

/-- The `dirty` component (edyn/comp/dirty.hpp): per-entity lists of
created, updated and destroyed component type indices, plus the
`is_new_entity` flag set when the entity itself was just created. -/
structure dirty where
  created_indexes : List CompId
  updated_indexes : List CompId
  destroyed_indexes : List CompId
  is_new_entity : Bool
deriving DecidableEq, Repr

/-- The live entries of a `continuous` component: its first `size` array
entries, in order, as iterated by `island_worker::sync`. -/
def continuous.live (c : continuous) : List Nat :=
  (List.range c.size).map (fun i => c.indices.getD i 0)

/-- The slice of the worker registry that `island_worker::sync` and
`island_worker::sync_dirty` iterate: the entities of the `AABB` view, of the
`contact_manifold` view, and the entity-component pairs of the `continuous`
and `dirty` views, each in view-iteration order. -/
structure worker_registry where
  aabb_entities : List Entity
  manifold_entities : List Entity
  continuous_entities : List (Entity × continuous)
  dirty_entities : List (Entity × dirty)
deriving DecidableEq, Repr

/-- Method `island_worker::sync_dirty` (island_worker.cpp, lines 362-379): for each
entity with a `dirty` component, record a created-entity event when
`is_new_entity`, then created/updated/destroyed component events for the
recorded indexes.  (The clearing of the `dirty` pool happens in the caller
model, `sync`.) -/
def sync_dirty_entries (reg : worker_registry) : List delta_entry :=
  reg.dirty_entities.flatMap (fun p =>
    (if p.2.is_new_entity then [delta_entry.created_entity p.1] else [])
    ++ p.2.created_indexes.map (fun i => delta_entry.created_comp p.1 i)
    ++ p.2.updated_indexes.map (fun i => delta_entry.updated_comp p.1 i)
    ++ p.2.destroyed_indexes.map (fun i => delta_entry.destroyed_comp p.1 i))

/-- Method `island_worker::sync` (island_worker.cpp, lines 333-360): starting from
whatever the persistent delta builder already holds (`builder0`), append an
`AABB` update for every entity of the `AABB` view, a `contact_manifold`
update for every entity of that view, an update for every component type
listed in every entity's `continuous` component (translated through
`index_source.type_id_of`, modelled by `tid`), then `sync_dirty`; the first
result component is the finished delta sent to the coordinator, the second
the registry after `m_registry.clear<dirty>()`. -/
def sync (builder0 : List delta_entry) (tid : Nat → CompId) (reg : worker_registry) :
    List delta_entry × worker_registry :=
  let b1 := builder0 ++ reg.aabb_entities.map (fun e => delta_entry.updated_comp e aabb_id)
  let b2 := b1 ++ reg.manifold_entities.map
    (fun e => delta_entry.updated_comp e contact_manifold_id)
  let b3 := b2 ++ reg.continuous_entities.flatMap
    (fun p => p.2.live.map (fun ix => delta_entry.updated_comp p.1 (tid ix)))
  let b4 := b3 ++ sync_dirty_entries reg
  (b4, { reg with dirty_entities := [] })

/-! Section: destruction observers and suppression flags
(island_worker.cpp, lines 133-212) -/

/-- The worker flags consulted by the destruction observers, plus the delta
builder contents.  `importing_delta` is `m_importing_delta` (set while
`on_island_delta` imports a coordinator delta), `splitting` is
`m_splitting` (set while a split is pending/executing), and
`clearing_dangling_np_nodes` is `m_clearing_dangling_np_nodes` (set inside
`clear_dangling_non_procedural_nodes`). -/
structure observer_state where
  importing_delta : Bool
  splitting : Bool
  clearing_dangling_np_nodes : Bool
  builder : List delta_entry
deriving DecidableEq, Repr

/-- Observer `island_worker::on_destroy_contact_manifold`: records the destruction in
the delta builder when neither importing nor splitting.  (The entity-map
erasure performed by the handler does not touch the delta and is omitted;
note the handler does not consult `m_clearing_dangling_np_nodes`.) -/
def on_destroy_contact_manifold (st : observer_state) (entity : Entity) : observer_state :=
  if !st.importing_delta && !st.splitting then
    { st with builder := st.builder ++ [delta_entry.destroyed_entity entity] }
  else st

/-- Observer `island_worker::on_destroy_graph_node`: records the destruction in the
delta builder when not importing, not splitting and not clearing dangling
non-procedural nodes.  (The graph surgery and entity-map erasure performed
by the handler do not touch the delta and are omitted.) -/
def on_destroy_graph_node (st : observer_state) (entity : Entity) : observer_state :=
  if !st.importing_delta && !st.splitting && !st.clearing_dangling_np_nodes then
    { st with builder := st.builder ++ [delta_entry.destroyed_entity entity] }
  else st

/-- Observer `island_worker::on_destroy_graph_edge`: records the destruction under
the same three-flag condition as `on_destroy_graph_node`.  (Graph surgery,
dangling-candidate collection, entity-map erasure and the
`m_topology_changed` update are omitted: they do not touch the delta.) -/
def on_destroy_graph_edge (st : observer_state) (entity : Entity) : observer_state :=
  if !st.importing_delta && !st.splitting && !st.clearing_dangling_np_nodes then
    { st with builder := st.builder ++ [delta_entry.destroyed_entity entity] }
  else st

/-! Section: `on_wake_up_island` (island_worker.cpp, lines 315-331) -/

/-- The slice of the worker registry that `on_wake_up_island` reads and
writes: the island entity, its `island_timestamp`, and the entities
currently carrying `sleeping_tag` in view order. -/
structure wake_registry where
  island_entity : Entity
  island_timestamp_value : ℚ
  sleeping_entities : List Entity
deriving DecidableEq, Repr

/-- Handler `island_worker::on_wake_up_island`: returns unchanged with no message
when the island entity does not carry `sleeping_tag`; otherwise sets the
island timestamp to the current time, records the timestamp update, records
a `sleeping_tag` destruction for every tagged entity, clears the tag, and
sends the finished delta. -/
def on_wake_up_island (reg : wake_registry) (now : ℚ) :
    wake_registry × Option (List delta_entry) :=
  if reg.island_entity ∈ reg.sleeping_entities then
    let builder := [delta_entry.updated_comp reg.island_entity island_timestamp_id]
      ++ reg.sleeping_entities.map (fun e => delta_entry.destroyed_comp e sleeping_tag_id)
    ({ reg with island_timestamp_value := now, sleeping_entities := [] }, some builder)
  else (reg, none)

/-! Section: `should_split` (island_worker.cpp, lines 641-663) -/

/-- The worker members consulted and updated by
`island_worker::should_split`. -/
structure split_state where
  topology_changed : Bool
  pending_split_calculation : Bool
  calculate_split_timestamp : ℚ
  calculate_split_delay : ℚ
deriving DecidableEq, Repr

/-- The values of those members set by the `island_worker` constructor:
no topology change, no pending calculation, and
`m_calculate_split_delay(0.6)`. -/
def island_worker_initial_split_state : split_state :=
  { topology_changed := false
    pending_split_calculation := false
    calculate_split_timestamp := 0
    calculate_split_delay := 3/5 }

/-- Method `island_worker::should_split`: returns false at once when topology has
not changed; if a split calculation is pending and the debounce delay has
elapsed, completes the check (clearing both the pending flag and the
topology-changed flag) and returns true exactly when the worker graph is
not a single connected component; otherwise arms the pending calculation,
stamping the current time, and returns false. -/
def should_split (st : split_state) (time : ℚ) (single_connected_component : Bool) :
    Bool × split_state :=
  if !st.topology_changed then (false, st)
  else if st.pending_split_calculation then
    if time - st.calculate_split_timestamp > st.calculate_split_delay then
      let st' := { st with pending_split_calculation := false, topology_changed := false }
      if !single_connected_component then (true, st') else (false, st')
    else (false, st)
  else
    (false, { st with pending_split_calculation := true,
                      calculate_split_timestamp := time })

/-! Section: server side,: island ownership and transient snapshots
(src/edyn/networking/sys/server_side.cpp) -/

/-- The `island` component: the island's node entities and edge entities. -/
structure island where
  nodes : List Entity
  edges : List Entity
deriving DecidableEq, Repr

/-- The loop body of `update_island_entity_owners` for one island: walk the
island's nodes then edges; entities without an `entity_owner` component
(`lookup = none`) or whose owner is `entt::null` (`some none`) are skipped;
the first non-null owner becomes the island owner; a second, different
non-null owner resets the island owner to null and breaks.  `owner_comp`
maps an entity to its `entity_owner.client_entity` (`none` inner value =
`entt::null`). -/
def island_owner_loop (owner_comp : List (Entity × Option Entity)) :
    Option Entity → List Entity → Option Entity
  | cur, [] => cur
  | cur, entity :: rest =>
    match owner_comp.lookup entity with
    | none => island_owner_loop owner_comp cur rest
    | some none => island_owner_loop owner_comp cur rest
    | some (some client) =>
      match cur with
      | none => island_owner_loop owner_comp (some client) rest
      | some c =>
        if c = client then island_owner_loop owner_comp cur rest
        else none

/-- Function `update_island_entity_owners` restricted to a single island: the owner
starts at null (`island_owner.client_entity = entt::null`) and the loop
ranges over the island's nodes followed by its edges. -/
def update_island_entity_owner (owner_comp : List (Entity × Option Entity))
    (isle : island) : Option Entity :=
  island_owner_loop owner_comp none (isle.nodes ++ isle.edges)

/-- The non-null `entity_owner.client_entity` values found among an
island's nodes and edges, in iteration order (specification-side list used
to state the ownership theorem). -/
def island_owner_candidates (owner_comp : List (Entity × Option Entity))
    (isle : island) : List Entity :=
  (isle.nodes ++ isle.edges).filterMap (fun e => (owner_comp.lookup e).join)

/-- The slice of the server registry used by `is_fully_owned_by_client` and
`maybe_publish_client_transient_snapshot`: tag pools, residency components,
per-island owners, and the transient networked components each entity would
export (`pool_snapshot_exporter->export_transient`). -/
structure server_registry where
  sleeping_entities : List Entity
  static_entities : List Entity
  networked_entities : List Entity
  island_resident_of : List (Entity × Entity)
  multi_island_resident_of : List (Entity × List Entity)
  island_owner : List (Entity × Option Entity)
  transient_pools_of : List (Entity × List CompId)
deriving DecidableEq, Repr

/-- Owner of an island entity.  Every island on the server carries an
`entity_owner` (attached by the `on_construct<island>` hook in
`init_network_server`); an absent entry is treated as a null owner. -/
def island_owner_of (reg : server_registry) (island_entity : Entity) : Option Entity :=
  (reg.island_owner.lookup island_entity).join

/-- Function `is_fully_owned_by_client` (server_side.cpp, lines 68-87): an entity
with an `island_resident` is fully owned when its island's owner is the
client; one with a `multi_island_resident` when every one of its islands is
owned by the client; an entity with neither residency is considered fully
owned. -/
def is_fully_owned_by_client (reg : server_registry)
    (client_entity entity : Entity) : Bool :=
  match reg.island_resident_of.lookup entity with
  | some island_entity => island_owner_of reg island_entity == some client_entity
  | none =>
    match reg.multi_island_resident_of.lookup entity with
    | some island_entities =>
        island_entities.all (fun isle => island_owner_of reg isle == some client_entity)
    | none => true

/-- The `remote_client` members used by the transient-snapshot emission. -/
structure remote_client where
  snapshot_rate : ℚ
  last_snapshot_time : ℚ
deriving DecidableEq, Repr

/-- Field `aabb_of_interest::entities`: the current membership of the client's
region. -/
structure aabb_of_interest where
  entities : List Entity
deriving DecidableEq, Repr

/-- Packet `packet::transient_snapshot`, with pools modelled as the flat list of
(entity, transient component id) pairs the exporter produced. -/
structure transient_snapshot where
  timestamp : ℚ
  pools : List (Entity × CompId)
deriving DecidableEq, Repr

/-- The pool contents accumulated by the loop of
`maybe_publish_client_transient_snapshot`: entities of the AABB of interest
with `sleeping_tag` or `static_tag` are skipped, as are non-networked ones
and those fully owned by the client; for the rest,
`pool_snapshot_exporter->export_transient` contributes the entity's
transient components. -/
def client_transient_pools (reg : server_registry) (client_entity : Entity)
    (aabboi : aabb_of_interest) : List (Entity × CompId) :=
  aabboi.entities.flatMap (fun entity =>
    if entity ∈ reg.sleeping_entities ∨ entity ∈ reg.static_entities then []
    else if entity ∉ reg.networked_entities then []
    else if is_fully_owned_by_client reg client_entity entity then []
    else ((reg.transient_pools_of.lookup entity).getD []).map (fun c => (entity, c)))

/-- Function `maybe_publish_client_transient_snapshot` (server_side.cpp, lines
473-508): returns unchanged when less than `1/snapshot_rate` has elapsed
since the client's last snapshot; otherwise stamps `last_snapshot_time`,
exports the transient components of every entity of the AABB of interest
that is neither sleeping nor static, is networked, and is not fully owned
by the client, and publishes the packet only when the pools are
non-empty. -/
def maybe_publish_client_transient_snapshot (reg : server_registry)
    (client_entity : Entity) (client : remote_client) (aabboi : aabb_of_interest)
    (time : ℚ) : remote_client × Option transient_snapshot :=
  if time - client.last_snapshot_time < 1 / client.snapshot_rate then
    (client, none)
  else
    let client' := { client with last_snapshot_time := time }
    let pools := client_transient_pools reg client_entity aabboi
    if pools = [] then (client', none)
    else (client', some { timestamp := time, pools := pools })

/-! Section: client side,: transient-snapshot processing with extrapolation
(src/edyn/networking/sys/client_side.cpp, lines 447-489 and 522-626) -/

/-- The entity graph as the client sees it: the entities carrying a
`graph_node` component, and the edges as
(edge entity, endpoint node entity, endpoint node entity) triples. -/
structure entity_graph_model where
  nodes : List Entity
  edges : List (Entity × Entity × Entity)
deriving DecidableEq, Repr

/-- The client-side state read by `process_packet(transient_snapshot)`:
the remote-to-local `entity_map`, the set of valid registry entities, the
entities tagged `static_tag`, the entity graph, and the extrapolation-job
bookkeeping from `client_network_context` and `client_network_settings`. -/
structure client_snapshot_context where
  entity_map : List (Entity × Entity)
  valid_entities : List Entity
  static_entities : List Entity
  graph : entity_graph_model
  extrapolation_jobs_count : Nat
  max_concurrent_extrapolations : Nat
deriving DecidableEq, Repr

/-- Function `collect_unknown_entities` over all pools (the body of
`request_unknown_entities_in_pools`): a remote entity is unknown when it
has no entry in the entity map, or its mapped local entity is no longer
valid (in which case the stale mapping is also erased).  The C++ function
deduplicates via an `entt::sparse_set`; the model keeps duplicates, which
does not affect emptiness or membership. -/
def unknown_entities (ctx : client_snapshot_context)
    (pool_entities : List Entity) : List Entity :=
  pool_entities.filter (fun remote =>
    match ctx.entity_map.lookup remote with
    | some loc => decide (loc ∉ ctx.valid_entities)
    | none => true)

/-- The snapshot's entities translated into local registry space
(`snapshot_local.convert_remloc` followed by `get_entities`); entities
without a mapping are dropped (in the launch branch none are, since the
unknown set is empty there). -/
def snapshot_local_entities (ctx : client_snapshot_context)
    (pool_entities : List Entity) : List Entity :=
  pool_entities.filterMap (fun r => ctx.entity_map.lookup r)

/-- The entity set collected for the extrapolation input: every snapshot
entity; every graph edge one of whose endpoints is a snapshot entity
carrying `graph_node` and whose other endpoint is also a snapshot entity
(this is how the loop over `graph.visit_edges` selects edges); and every
entity tagged static.  The C++ code accumulates into an
`entt::sparse_set`; the model keeps duplicates, which does not affect
membership. -/
def extrapolation_entities (ctx : client_snapshot_context)
    (snap_local : List Entity) : List Entity :=
  snap_local
  ++ (ctx.graph.edges.filter (fun t =>
        decide ((t.2.1 ∈ snap_local ∧ t.2.1 ∈ ctx.graph.nodes ∧ t.2.2 ∈ snap_local)
          ∨ (t.2.2 ∈ snap_local ∧ t.2.2 ∈ ctx.graph.nodes ∧ t.2.1 ∈ snap_local)))).map
      (fun t => t.1)
  ++ ctx.static_entities

/-- Function `process_packet(registry, transient_snapshot)` in the
extrapolation-enabled path: an entity request is emitted exactly when some
pool references an unknown entity; the snapshot is dropped (no job
launched, nothing else changed) when there are unknown entities or the
number of in-flight extrapolation jobs is at least
`max_concurrent_extrapolations`; otherwise exactly one extrapolation job is
launched whose entity set is `extrapolation_entities`.  (The insertion of
remote input components into the state history, which happens on every
path, is outside this model.)  The first result component tells whether an
`entity_request` was published, the second carries the launched job's
entity set. -/
def process_transient_snapshot (ctx : client_snapshot_context)
    (pool_entities : List Entity) : Bool × Option (List Entity) :=
  let unknown := unknown_entities ctx pool_entities
  if !unknown.isEmpty then (true, none)
  else if ctx.extrapolation_jobs_count ≥ ctx.max_concurrent_extrapolations then
    (false, none)
  else
    (false, some (extrapolation_entities ctx (snapshot_local_entities ctx pool_entities)))

end Edyn

namespace Edyn

/-! Section: theorems -/

/-- C10: `continuous::insert` writes `index` at position `size` and then
increments `size`, so the write is within the 16-entry array exactly when
`size < 16` beforehand, and the post-write assertion `size <= 16` holds
exactly under that same precondition; `continuous::remove` overwrites the
first matching live entry with the last live entry and decrements `size`,
and leaves the component unchanged when `index` is absent from the live
entries. -/
theorem continuous_insert_remove_spec (c : continuous) (index : Nat)
    (hlen : c.indices.length = 16) :
    ((c.insert index).size = c.size + 1
      ∧ ((c.insert index).indices[c.size]? = some index ↔ c.size < 16)
      ∧ ((c.insert index).size ≤ continuous.max_size ↔ c.size < 16))
    ∧ ((∀ j < c.size, c.indices.getD j 0 ≠ index) → c.remove index = c)
    ∧ (∀ i, (List.range c.size).find? (fun j => c.indices.getD j 0 == index) = some i →
        (c.remove index).size = c.size - 1
        ∧ (c.remove index).indices = c.indices.set i (c.indices.getD (c.size - 1) 0)) := by
  refine ⟨⟨rfl, ?_, ?_⟩, ?_, ?_⟩
  · constructor
    · intro h
      by_contra hge
      push_neg at hge
      have hle : c.indices.length ≤ c.size := by omega
      rw [continuous.insert] at h
      simp only at h
      rw [List.set_eq_of_length_le hle, List.getElem?_eq_none hle] at h
      cases h
    · intro h
      rw [continuous.insert]
      exact List.getElem?_set_eq_of_lt index (by omega)
  · rw [continuous.insert, continuous.max_size]
    simp only []
    omega
  · intro habs
    rw [continuous.remove]
    have : (List.range c.size).find? (fun j => c.indices.getD j 0 == index) = none := by
      rw [List.find?_eq_none]
      intro j hj
      rw [List.mem_range] at hj
      simpa using habs j hj
    rw [this]
  · intro i hfind
    rw [continuous.remove, hfind]
    exact ⟨rfl, rfl⟩

/-- Witness for `continuous_insert_remove_spec` at a concrete component. -/
theorem continuous_insert_remove_spec_witness :
    (continuous.mk [5, 7, 9, 0, 0, 0, 0, 0, 0, 0, 0, 0, 0, 0, 0, 0] 3).remove 7
      = continuous.mk [5, 9, 9, 0, 0, 0, 0, 0, 0, 0, 0, 0, 0, 0, 0, 0] 2 := by
  have h := continuous_insert_remove_spec
    (continuous.mk [5, 7, 9, 0, 0, 0, 0, 0, 0, 0, 0, 0, 0, 0, 0, 0] 3) 7 (by decide)
  have hfind : (List.range 3).find?
      (fun j => ([5, 7, 9, 0, 0, 0, 0, 0, 0, 0, 0, 0, 0, 0, 0, 0].getD j 0 : Nat) == 7)
      = some 1 := by decide
  obtain ⟨hsz, hidx⟩ := h.2.2 1 hfind
  have : (continuous.mk [5, 7, 9, 0, 0, 0, 0, 0, 0, 0, 0, 0, 0, 0, 0, 0] 3).remove 7
      = continuous.mk ([5, 7, 9, 0, 0, 0, 0, 0, 0, 0, 0, 0, 0, 0, 0, 0].set 1
          ([5, 7, 9, 0, 0, 0, 0, 0, 0, 0, 0, 0, 0, 0, 0, 0].getD 2 0)) 2 := by
    cases hrem : (continuous.mk [5, 7, 9, 0, 0, 0, 0, 0, 0, 0, 0, 0, 0, 0, 0, 0] 3).remove 7
    cases hrem ▸ hsz
    cases hrem ▸ hidx
    rfl
  rw [this]
  decide

/-- C1 counterexample: with `island_time = 0`, `step_start_time = 23/2` and
`fixed_dt = 1` the lag spans `⌊23/2⌋ = 11 > 10` steps, yet `finish_step`
sets the timestamp to `1`, not to `now - 10 * fixed_dt = 3/2` as the claim
states. -/
theorem finish_step_clamp_counterexample :
    (⌊(((23 : ℚ)/2 - 0) / 1)⌋ > 10)
    ∧ finish_step_island_time 0 (23/2) 1 ≠ (23 : ℚ)/2 - 10 * 1 := by
  constructor
  · norm_num
  · rw [finish_step_island_time]
    norm_num

/-- C1 (amended): when `⌊(step_start_time - island_time)/fixed_dt⌋ > 10`,
`finish_step` clamps `island_time` to
`step_start_time - (remainder + 10 * fixed_dt)`, where `remainder` is the
fractional residue `dt - ⌊dt/fixed_dt⌋ * fixed_dt`, so that exactly 10 whole
fixed steps of lag remain (`⌊lag/fixed_dt⌋ = 10`); otherwise `island_time`
advances by exactly `fixed_dt`. -/
theorem finish_step_clamp_amended (isle_time step_start_time fixed_dt : ℚ)
    (hdt : 0 < fixed_dt) :
    (⌊(step_start_time - isle_time) / fixed_dt⌋ > 10 →
      finish_step_island_time isle_time step_start_time fixed_dt
        = step_start_time - ((step_start_time - isle_time)
            - (⌊(step_start_time - isle_time) / fixed_dt⌋ : ℚ) * fixed_dt
            + 10 * fixed_dt)
      ∧ ⌊(step_start_time
            - finish_step_island_time isle_time step_start_time fixed_dt)
          / fixed_dt⌋ = 10)
    ∧ (⌊(step_start_time - isle_time) / fixed_dt⌋ ≤ 10 →
      finish_step_island_time isle_time step_start_time fixed_dt
        = isle_time + fixed_dt) := by
  constructor
  · intro hlag
    have heq : finish_step_island_time isle_time step_start_time fixed_dt
        = step_start_time - ((step_start_time - isle_time)
            - (⌊(step_start_time - isle_time) / fixed_dt⌋ : ℚ) * fixed_dt
            + 10 * fixed_dt) := by
      rw [finish_step_island_time]
      simp only [if_pos hlag]
      push_cast
      ring
    refine ⟨heq, ?_⟩
    rw [heq]
    have hne : fixed_dt ≠ 0 := ne_of_gt hdt
    have hdiv : (step_start_time - (step_start_time
        - ((step_start_time - isle_time)
            - (⌊(step_start_time - isle_time) / fixed_dt⌋ : ℚ) * fixed_dt
            + 10 * fixed_dt))) / fixed_dt
        = Int.fract ((step_start_time - isle_time) / fixed_dt) + (10 : ℤ) := by
      rw [Int.fract]
      field_simp
      ring
    rw [hdiv, Int.floor_add_int, Int.floor_fract]
    norm_num
  · intro hle
    rw [finish_step_island_time]
    simp only [if_neg (by omega : ¬(⌊(step_start_time - isle_time) / fixed_dt⌋ > (10 : ℤ)))]

/-- Witness for `finish_step_clamp_amended` at concrete times. -/
theorem finish_step_clamp_amended_witness :
    finish_step_island_time 0 (23/2) 1 = 1 ∧ finish_step_island_time 0 (1/2) 1 = 1 := by
  have h1 := (finish_step_clamp_amended 0 (23/2) 1 (by norm_num)).1 (by norm_num)
  have h2 := (finish_step_clamp_amended 0 (1/2) 1 (by norm_num)).2 (by norm_num)
  refine ⟨?_, by rw [h2]; norm_num⟩
  rw [h1.1]
  norm_num

/-- C2: every call to `island_worker::sync` emits into the outbound delta an
update of the `AABB` component of every entity of the `AABB` view, an
update of every `contact_manifold` component, an update of every component
type listed in each entity's `continuous` component, and the creations,
updates and destructions recorded in every entity's `dirty` component; the
`dirty` pool is cleared afterwards, previously recorded builder entries are
kept, and the finished delta is what gets sent to the coordinator. -/
theorem sync_spec (builder0 : List delta_entry) (tid : Nat → CompId)
    (reg : worker_registry) :
    (∀ e ∈ reg.aabb_entities,
        delta_entry.updated_comp e aabb_id ∈ (sync builder0 tid reg).1)
    ∧ (∀ e ∈ reg.manifold_entities,
        delta_entry.updated_comp e contact_manifold_id ∈ (sync builder0 tid reg).1)
    ∧ (∀ p ∈ reg.continuous_entities, ∀ ix ∈ continuous.live p.2,
        delta_entry.updated_comp p.1 (tid ix) ∈ (sync builder0 tid reg).1)
    ∧ (∀ p ∈ reg.dirty_entities,
        (p.2.is_new_entity = true →
          delta_entry.created_entity p.1 ∈ (sync builder0 tid reg).1)
        ∧ (∀ i ∈ p.2.created_indexes,
            delta_entry.created_comp p.1 i ∈ (sync builder0 tid reg).1)
        ∧ (∀ i ∈ p.2.updated_indexes,
            delta_entry.updated_comp p.1 i ∈ (sync builder0 tid reg).1)
        ∧ (∀ i ∈ p.2.destroyed_indexes,
            delta_entry.destroyed_comp p.1 i ∈ (sync builder0 tid reg).1))
    ∧ (∀ d ∈ builder0, d ∈ (sync builder0 tid reg).1)
    ∧ (sync builder0 tid reg).2.dirty_entities = [] := by
  refine ⟨?_, ?_, ?_, ?_, ?_, rfl⟩
  · intro e he
    simp only [sync, List.mem_append, List.mem_map]
    exact Or.inl (Or.inl (Or.inl (Or.inr ⟨e, he, rfl⟩)))
  · intro e he
    simp only [sync, List.mem_append, List.mem_map]
    exact Or.inl (Or.inl (Or.inr ⟨e, he, rfl⟩))
  · intro p hp ix hix
    simp only [sync, List.mem_append, List.mem_flatMap, List.mem_map]
    exact Or.inl (Or.inr ⟨p, hp, ⟨ix, hix, rfl⟩⟩)
  · intro p hp
    have hmem : ∀ d : delta_entry,
        d ∈ ((if p.2.is_new_entity then [delta_entry.created_entity p.1] else [])
          ++ p.2.created_indexes.map (fun i => delta_entry.created_comp p.1 i)
          ++ p.2.updated_indexes.map (fun i => delta_entry.updated_comp p.1 i)
          ++ p.2.destroyed_indexes.map (fun i => delta_entry.destroyed_comp p.1 i)) →
        d ∈ (sync builder0 tid reg).1 := by
      intro d hd
      simp only [sync, sync_dirty_entries, List.mem_append, List.mem_flatMap]
      refine Or.inr ⟨p, hp, ?_⟩
      simp only [List.mem_append] at hd ⊢
      tauto
    refine ⟨?_, ?_, ?_, ?_⟩
    · intro hnew
      apply hmem
      simp [hnew]
    · intro i hi
      apply hmem
      simp only [List.mem_append, List.mem_map]
      exact Or.inl (Or.inl (Or.inr ⟨i, hi, rfl⟩))
    · intro i hi
      apply hmem
      simp only [List.mem_append, List.mem_map]
      exact Or.inl (Or.inr ⟨i, hi, rfl⟩)
    · intro i hi
      apply hmem
      simp only [List.mem_append, List.mem_map]
      exact Or.inr ⟨i, hi, rfl⟩
  · intro d hd
    simp only [sync, List.mem_append]
    exact Or.inl (Or.inl (Or.inl (Or.inl hd)))

/-- Witness for `sync_spec` at a concrete worker registry. -/
theorem sync_spec_witness :
    delta_entry.updated_comp 3 aabb_id
        ∈ (sync [] id ⟨[3], [4], [(5, ⟨[8, 9], 2⟩)], [(6, ⟨[1], [2], [3], true⟩)]⟩).1
    ∧ delta_entry.created_entity 6
        ∈ (sync [] id ⟨[3], [4], [(5, ⟨[8, 9], 2⟩)], [(6, ⟨[1], [2], [3], true⟩)]⟩).1
    ∧ delta_entry.updated_comp 5 9
        ∈ (sync [] id ⟨[3], [4], [(5, ⟨[8, 9], 2⟩)], [(6, ⟨[1], [2], [3], true⟩)]⟩).1 := by
  have h := sync_spec [] id ⟨[3], [4], [(5, ⟨[8, 9], 2⟩)], [(6, ⟨[1], [2], [3], true⟩)]⟩
  refine ⟨h.1 3 (by decide), (h.2.2.2.1 (6, ⟨[1], [2], [3], true⟩) (by decide)).1 rfl, ?_⟩
  exact h.2.2.1 (5, ⟨[8, 9], 2⟩) (by decide) 9 (by decide)

/-- C3 counterexample: while clearing dangling non-procedural nodes
(`m_clearing_dangling_np_nodes = true`, not importing, not splitting) the
contact-manifold destruction observer still records a destruction entry in
the delta, so suppression does not cover all three component kinds in all
three situations as the claim states. -/
theorem observer_suppression_counterexample :
    (on_destroy_contact_manifold ⟨false, false, true, []⟩ 0).builder
      = [delta_entry.destroyed_entity 0] := by
  decide

/-- C3 (amended): graph-node and graph-edge destructions are recorded in
the outbound delta exactly when none of the three suppression flags
(importing a coordinator delta, executing a split, clearing dangling
non-procedural nodes) is set, while contact-manifold destructions are
suppressed only by the first two: they are still recorded while clearing
dangling non-procedural nodes. -/
theorem observer_suppression_amended (st : observer_state) (e : Entity) :
    ((on_destroy_contact_manifold st e).builder
      = if st.importing_delta = false ∧ st.splitting = false
        then st.builder ++ [delta_entry.destroyed_entity e] else st.builder)
    ∧ ((on_destroy_graph_node st e).builder
      = if st.importing_delta = false ∧ st.splitting = false
            ∧ st.clearing_dangling_np_nodes = false
        then st.builder ++ [delta_entry.destroyed_entity e] else st.builder)
    ∧ ((on_destroy_graph_edge st e).builder
      = if st.importing_delta = false ∧ st.splitting = false
            ∧ st.clearing_dangling_np_nodes = false
        then st.builder ++ [delta_entry.destroyed_entity e] else st.builder) := by
  obtain ⟨imp, spl, clr, b⟩ := st
  refine ⟨?_, ?_, ?_⟩ <;>
    cases imp <;> cases spl <;> cases clr <;>
      simp [on_destroy_contact_manifold, on_destroy_graph_node, on_destroy_graph_edge]

/-- C9: `on_wake_up_island` is a no-op (registry unchanged, no delta sent)
when the island entity does not carry `sleeping_tag`; when it does, the
island timestamp is set to the current time, `sleeping_tag` is removed from
every tagged entity, and the sent delta records the timestamp update
followed by one `sleeping_tag` destruction per previously tagged entity. -/
theorem on_wake_up_island_spec (reg : wake_registry) (now : ℚ) :
    (reg.island_entity ∉ reg.sleeping_entities →
      on_wake_up_island reg now = (reg, none))
    ∧ (reg.island_entity ∈ reg.sleeping_entities →
      (on_wake_up_island reg now).1.island_entity = reg.island_entity
      ∧ (on_wake_up_island reg now).1.island_timestamp_value = now
      ∧ (on_wake_up_island reg now).1.sleeping_entities = []
      ∧ (on_wake_up_island reg now).2
        = some ([delta_entry.updated_comp reg.island_entity island_timestamp_id]
            ++ reg.sleeping_entities.map
                (fun e => delta_entry.destroyed_comp e sleeping_tag_id))) := by
  constructor
  · intro h
    rw [on_wake_up_island, if_neg h]
  · intro h
    rw [on_wake_up_island, if_pos h]
    exact ⟨rfl, rfl, rfl, rfl⟩

/-- Witness for `on_wake_up_island_spec`: one sleeping and one awake
island. -/
theorem on_wake_up_island_spec_witness :
    on_wake_up_island ⟨1, 0, []⟩ 5 = (⟨1, 0, []⟩, none)
    ∧ (on_wake_up_island ⟨1, 0, [1, 2]⟩ 5).2
      = some [delta_entry.updated_comp 1 island_timestamp_id,
              delta_entry.destroyed_comp 1 sleeping_tag_id,
              delta_entry.destroyed_comp 2 sleeping_tag_id] := by
  constructor
  · exact (on_wake_up_island_spec ⟨1, 0, []⟩ 5).1 (by decide)
  · rw [((on_wake_up_island_spec ⟨1, 0, [1, 2]⟩ 5).2 (by decide)).2.2.2]
    rfl

/-- C4: `should_split` returns true exactly when topology has changed, a
split calculation is pending, and the debounce delay (measured from the
arming timestamp) has elapsed while the worker graph is not a single
connected component; a call that merely arms the debounce returns false and
stamps the arming time, a completed check clears the pending and
topology-changed flags, and the constructor sets the debounce delay to
0.6 s. -/
theorem should_split_spec (st : split_state) (time : ℚ)
    (single_connected_component : Bool) :
    ((should_split st time single_connected_component).1 = true ↔
      st.topology_changed = true ∧ st.pending_split_calculation = true
      ∧ time - st.calculate_split_timestamp > st.calculate_split_delay
      ∧ single_connected_component = false)
    ∧ (st.topology_changed = true → st.pending_split_calculation = false →
      should_split st time single_connected_component
        = (false, { st with pending_split_calculation := true,
                            calculate_split_timestamp := time }))
    ∧ (st.topology_changed = true → st.pending_split_calculation = true →
      time - st.calculate_split_timestamp > st.calculate_split_delay →
      (should_split st time single_connected_component).2.topology_changed = false
      ∧ (should_split st time single_connected_component).2.pending_split_calculation
          = false)
    ∧ island_worker_initial_split_state.calculate_split_delay = 3/5 := by
  obtain ⟨tc, pd, ts, dl⟩ := st
  by_cases hd : time - ts > dl <;>
    cases tc <;> cases pd <;> cases single_connected_component <;>
      simp [should_split, hd, island_worker_initial_split_state]

/-- Witness for `should_split_spec`: a positive split decision and an
arming call at concrete states. -/
theorem should_split_spec_witness :
    (should_split ⟨true, true, 0, 3/5⟩ 1 false).1 = true
    ∧ should_split ⟨true, false, 0, 3/5⟩ 1 false = (false, ⟨true, true, 1, 3/5⟩) := by
  constructor
  · exact (should_split_spec ⟨true, true, 0, 3/5⟩ 1 false).1.mpr
      ⟨rfl, rfl, by norm_num, rfl⟩
  · exact (should_split_spec ⟨true, false, 0, 3/5⟩ 1 false).2.1 rfl rfl

/-- Membership in the body of the transient-snapshot export loop. -/
theorem mem_transient_export_body (reg : server_registry) (client_entity a : Entity)
    (e : Entity) (c : CompId) :
    ((e, c) ∈ (if a ∈ reg.sleeping_entities ∨ a ∈ reg.static_entities
        then ([] : List (Entity × CompId))
      else if a ∉ reg.networked_entities then []
      else if is_fully_owned_by_client reg client_entity a then []
      else ((reg.transient_pools_of.lookup a).getD []).map (fun x => (a, x)))) ↔
      (e = a ∧ a ∉ reg.sleeping_entities ∧ a ∉ reg.static_entities
        ∧ a ∈ reg.networked_entities
        ∧ is_fully_owned_by_client reg client_entity a = false
        ∧ c ∈ (reg.transient_pools_of.lookup a).getD []) := by
  by_cases h1 : a ∈ reg.sleeping_entities ∨ a ∈ reg.static_entities
  · rw [if_pos h1]
    constructor
    · intro hx
      exact absurd hx (List.not_mem_nil _)
    · rintro ⟨-, hs, hst, -, -, -⟩
      rcases h1 with h | h
      · exact absurd h hs
      · exact absurd h hst
  · rw [if_neg h1]
    by_cases h2 : a ∈ reg.networked_entities
    · rw [if_neg (not_not_intro h2)]
      by_cases h3 : is_fully_owned_by_client reg client_entity a = true
      · rw [if_pos h3]
        constructor
        · intro hx
          exact absurd hx (List.not_mem_nil _)
        · rintro ⟨-, -, -, -, hf, -⟩
          rw [h3] at hf
          exact absurd hf (by decide)
      · rw [if_neg h3]
        push_neg at h1
        simp only [List.mem_map, Prod.mk.injEq]
        constructor
        · rintro ⟨x, hx, rfl, rfl⟩
          refine ⟨rfl, h1.1, h1.2, h2, ?_, hx⟩
          simpa using h3
        · rintro ⟨rfl, -, -, -, -, hc⟩
          exact ⟨c, hc, rfl, rfl⟩
    · rw [if_pos h2]
      constructor
      · intro hx
        exact absurd hx (List.not_mem_nil _)
      · rintro ⟨-, -, -, hn, -, -⟩
        exact absurd hn h2

/-- Membership characterization of `client_transient_pools`. -/
theorem mem_client_transient_pools (reg : server_registry) (client_entity : Entity)
    (aabboi : aabb_of_interest) (e : Entity) (c : CompId) :
    (e, c) ∈ client_transient_pools reg client_entity aabboi ↔
      e ∈ aabboi.entities ∧ e ∉ reg.sleeping_entities ∧ e ∉ reg.static_entities
      ∧ e ∈ reg.networked_entities
      ∧ is_fully_owned_by_client reg client_entity e = false
      ∧ c ∈ (reg.transient_pools_of.lookup e).getD [] := by
  rw [client_transient_pools, List.mem_flatMap]
  constructor
  · rintro ⟨a, ha, hmem⟩
    rw [mem_transient_export_body] at hmem
    obtain ⟨rfl, h⟩ := hmem
    exact ⟨ha, h⟩
  · rintro ⟨ha, h⟩
    exact ⟨e, ha, (mem_transient_export_body reg client_entity e e c).mpr ⟨rfl, h⟩⟩

/-- C5: on a server tick, a transient snapshot is published to a client
only when at least `1/snapshot_rate` has elapsed since that client's last
snapshot; the published pools contain the transient components of exactly
the entities of the client's AABB of interest that are networked, carry
neither `sleeping_tag` nor `static_tag`, and are not in islands fully owned
by the client (in the sense of `is_fully_owned_by_client`, under which an
entity with no island residency counts as fully owned); when no entity
qualifies, no packet is published; the rate gate passing stamps
`last_snapshot_time` even when nothing is published. -/
theorem maybe_publish_client_transient_snapshot_spec (reg : server_registry)
    (client_entity : Entity) (client : remote_client) (aabboi : aabb_of_interest)
    (time : ℚ) :
    (∀ p, (maybe_publish_client_transient_snapshot reg client_entity client
        aabboi time).2 = some p →
      time - client.last_snapshot_time ≥ 1 / client.snapshot_rate)
    ∧ (∀ p, (maybe_publish_client_transient_snapshot reg client_entity client
        aabboi time).2 = some p →
      ∀ e c, ((e, c) ∈ p.pools ↔
        e ∈ aabboi.entities ∧ e ∉ reg.sleeping_entities ∧ e ∉ reg.static_entities
        ∧ e ∈ reg.networked_entities
        ∧ is_fully_owned_by_client reg client_entity e = false
        ∧ c ∈ (reg.transient_pools_of.lookup e).getD []))
    ∧ (time - client.last_snapshot_time < 1 / client.snapshot_rate →
      maybe_publish_client_transient_snapshot reg client_entity client aabboi time
        = (client, none))
    ∧ (¬ time - client.last_snapshot_time < 1 / client.snapshot_rate →
      (maybe_publish_client_transient_snapshot reg client_entity client
        aabboi time).1.last_snapshot_time = time)
    ∧ ((∀ e ∈ aabboi.entities, e ∈ reg.sleeping_entities ∨ e ∈ reg.static_entities
        ∨ e ∉ reg.networked_entities
        ∨ is_fully_owned_by_client reg client_entity e = true) →
      (maybe_publish_client_transient_snapshot reg client_entity client
        aabboi time).2 = none) := by
  by_cases hgate : time - client.last_snapshot_time < 1 / client.snapshot_rate
  · have hr : maybe_publish_client_transient_snapshot reg client_entity client
        aabboi time = (client, none) := by
      rw [maybe_publish_client_transient_snapshot, if_pos hgate]
    refine ⟨?_, ?_, fun _ => hr, fun h => absurd hgate h, ?_⟩
    · intro p hp
      rw [hr] at hp
      simp at hp
    · intro p hp
      rw [hr] at hp
      simp at hp
    · intro _
      rw [hr]
  · by_cases hpools : client_transient_pools reg client_entity aabboi = []
    · have hr : maybe_publish_client_transient_snapshot reg client_entity client
          aabboi time = ({ client with last_snapshot_time := time }, none) := by
        rw [maybe_publish_client_transient_snapshot, if_neg hgate]
        simp [hpools]
      refine ⟨?_, ?_, fun h => absurd h hgate, fun _ => by rw [hr], fun _ => by rw [hr]⟩
      · intro p hp
        rw [hr] at hp
        simp at hp
      · intro p hp
        rw [hr] at hp
        simp at hp
    · have hr : maybe_publish_client_transient_snapshot reg client_entity client
          aabboi time = ({ client with last_snapshot_time := time },
            some { timestamp := time,
                   pools := client_transient_pools reg client_entity aabboi }) := by
        rw [maybe_publish_client_transient_snapshot, if_neg hgate]
        simp [hpools]
      refine ⟨fun p _ => not_lt.mp hgate, ?_, fun h => absurd h hgate,
        fun _ => by rw [hr], ?_⟩
      · intro p hp e c
        rw [hr] at hp
        simp only [Option.some.injEq] at hp
        rw [← hp]
        exact mem_client_transient_pools reg client_entity aabboi e c
      · intro hall
        exfalso
        apply hpools
        rw [List.eq_nil_iff_forall_not_mem]
        rintro ⟨e, c⟩ hx
        rw [mem_client_transient_pools] at hx
        obtain ⟨h1, h2, h3, h4, h5, -⟩ := hx
        rcases hall e h1 with h | h | h | h
        · exact h2 h
        · exact h3 h
        · exact h h4
        · rw [h5] at h
          cases h

/-- Witness for `maybe_publish_client_transient_snapshot_spec` at a
concrete server registry with one qualifying entity. -/
theorem maybe_publish_client_transient_snapshot_spec_witness :
    (maybe_publish_client_transient_snapshot
        ⟨[], [], [1], [(1, 10)], [], [(10, some 99)], [(1, [50])]⟩
        7 ⟨30, 0⟩ ⟨[1]⟩ 1).2
      = some ⟨1, [(1, 50)]⟩
    ∧ (1 : ℚ) - 0 ≥ 1 / 30 := by
  have hpools : client_transient_pools
      ⟨[], [], [1], [(1, 10)], [], [(10, some 99)], [(1, [50])]⟩ 7 ⟨[1]⟩
      = [(1, 50)] := by decide
  have hsome : (maybe_publish_client_transient_snapshot
      ⟨[], [], [1], [(1, 10)], [], [(10, some 99)], [(1, [50])]⟩
      7 ⟨30, 0⟩ ⟨[1]⟩ 1).2 = some ⟨1, [(1, 50)]⟩ := by
    rw [maybe_publish_client_transient_snapshot, if_neg (by norm_num)]
    simp [hpools]
  refine ⟨hsome, ?_⟩
  exact (maybe_publish_client_transient_snapshot_spec
    ⟨[], [], [1], [(1, 10)], [], [(10, some 99)], [(1, [50])]⟩
    7 ⟨30, 0⟩ ⟨[1]⟩ 1).1 ⟨1, [(1, 50)]⟩ hsome

/-- Characterization of the ownership loop of `update_island_entity_owners`
by the list of non-null owners encountered. -/
theorem island_owner_loop_spec (oc : List (Entity × Option Entity)) (l : List Entity) :
    (∀ C, island_owner_loop oc none l = some C ↔
      (l.filterMap (fun e => (oc.lookup e).join) ≠ []
        ∧ ∀ o ∈ l.filterMap (fun e => (oc.lookup e).join), o = C))
    ∧ (∀ c C, island_owner_loop oc (some c) l = some C ↔
      (c = C ∧ ∀ o ∈ l.filterMap (fun e => (oc.lookup e).join), o = C)) := by
  induction l with
  | nil =>
    constructor
    · intro C
      simp [island_owner_loop]
    · intro c C
      simp [island_owner_loop]
  | cons e rest ih =>
    obtain ⟨ihn, ihs⟩ := ih
    have hfm_skip : (oc.lookup e).join = none →
        (e :: rest).filterMap (fun x => (oc.lookup x).join)
          = rest.filterMap (fun x => (oc.lookup x).join) := by
      intro h
      rw [List.filterMap_cons, h]
    have hfm_keep : ∀ client, (oc.lookup e).join = some client →
        (e :: rest).filterMap (fun x => (oc.lookup x).join)
          = client :: rest.filterMap (fun x => (oc.lookup x).join) := by
      intro client h
      rw [List.filterMap_cons, h]
    constructor
    · intro C
      cases hl : oc.lookup e with
      | none =>
        have hstep : island_owner_loop oc none (e :: rest)
            = island_owner_loop oc none rest := by
          simp only [island_owner_loop, hl]
        rw [hstep, hfm_skip (by rw [hl]; rfl)]
        exact ihn C
      | some o =>
        cases o with
        | none =>
          have hstep : island_owner_loop oc none (e :: rest)
              = island_owner_loop oc none rest := by
            simp only [island_owner_loop, hl]
          rw [hstep, hfm_skip (by rw [hl]; rfl)]
          exact ihn C
        | some client =>
          have hstep : island_owner_loop oc none (e :: rest)
              = island_owner_loop oc (some client) rest := by
            simp only [island_owner_loop, hl]
          rw [hstep, hfm_keep client (by rw [hl]; rfl), ihs client C]
          simp only [ne_eq, List.cons_ne_nil, not_false_iff, true_and,
            List.mem_cons, forall_eq_or_imp]
    · intro c C
      cases hl : oc.lookup e with
      | none =>
        have hstep : island_owner_loop oc (some c) (e :: rest)
            = island_owner_loop oc (some c) rest := by
          simp only [island_owner_loop, hl]
        rw [hstep, hfm_skip (by rw [hl]; rfl)]
        exact ihs c C
      | some o =>
        cases o with
        | none =>
          have hstep : island_owner_loop oc (some c) (e :: rest)
              = island_owner_loop oc (some c) rest := by
            simp only [island_owner_loop, hl]
          rw [hstep, hfm_skip (by rw [hl]; rfl)]
          exact ihs c C
        | some client =>
          have hstep : island_owner_loop oc (some c) (e :: rest)
              = if c = client then island_owner_loop oc (some c) rest else none := by
            simp only [island_owner_loop, hl]
          rw [hstep, hfm_keep client (by rw [hl]; rfl)]
          by_cases hc : c = client
          · rw [if_pos hc, ihs c C]
            subst hc
            simp only [List.mem_cons, forall_eq_or_imp]
            tauto
          · rw [if_neg hc]
            simp only [List.mem_cons, forall_eq_or_imp]
            constructor
            · intro h
              cases h
            · rintro ⟨rfl, hclient, -⟩
              exact absurd hclient.symm hc

/-- C6: per island, the recomputed `entity_owner.client_entity` is a client
`C` exactly when at least one node or edge of the island carries a non-null
owner and every non-null owner among the island's nodes and edges is `C`;
it is null when no non-null owner occurs or when two different clients
occur. -/
theorem update_island_entity_owner_spec (oc : List (Entity × Option Entity))
    (isle : island) :
    (∀ C, update_island_entity_owner oc isle = some C ↔
      (island_owner_candidates oc isle ≠ []
        ∧ ∀ o ∈ island_owner_candidates oc isle, o = C))
    ∧ (island_owner_candidates oc isle = [] →
      update_island_entity_owner oc isle = none)
    ∧ (∀ a ∈ island_owner_candidates oc isle,
        ∀ b ∈ island_owner_candidates oc isle, a ≠ b →
      update_island_entity_owner oc isle = none) := by
  have h := (island_owner_loop_spec oc (isle.nodes ++ isle.edges)).1
  have hmain : ∀ C, update_island_entity_owner oc isle = some C ↔
      (island_owner_candidates oc isle ≠ []
        ∧ ∀ o ∈ island_owner_candidates oc isle, o = C) := by
    intro C
    rw [update_island_entity_owner, island_owner_candidates]
    exact h C
  refine ⟨hmain, ?_, ?_⟩
  · intro hnil
    cases hu : update_island_entity_owner oc isle with
    | none => rfl
    | some C => exact absurd hnil ((hmain C).mp hu).1
  · intro a ha b hb hne
    cases hu : update_island_entity_owner oc isle with
    | none => rfl
    | some C =>
      have hall := ((hmain C).mp hu).2
      exact absurd ((hall a ha).trans (hall b hb).symm) hne

/-- Witness for `update_island_entity_owner_spec`: a single-owner island
and a two-owner island. -/
theorem update_island_entity_owner_spec_witness :
    update_island_entity_owner [(1, some 7), (2, some 7)] ⟨[1], [2]⟩ = some 7
    ∧ update_island_entity_owner [(1, some 7), (2, some 8)] ⟨[1], [2]⟩ = none := by
  constructor
  · exact ((update_island_entity_owner_spec [(1, some 7), (2, some 7)] ⟨[1], [2]⟩).1
      7).mpr ⟨by decide, by decide⟩
  · exact (update_island_entity_owner_spec [(1, some 7), (2, some 8)]
      ⟨[1], [2]⟩).2.2 7 (by decide) 8 (by decide) (by decide)

/-- Membership characterization of the extrapolation entity set, under the
graph well-formedness assumption that every edge endpoint carries
`graph_node`. -/
theorem mem_extrapolation_entities (ctx : client_snapshot_context)
    (snap_local : List Entity) (e : Entity)
    (hwf : ∀ t ∈ ctx.graph.edges, t.2.1 ∈ ctx.graph.nodes ∧ t.2.2 ∈ ctx.graph.nodes) :
    e ∈ extrapolation_entities ctx snap_local ↔
      e ∈ snap_local
      ∨ (∃ a b, (e, a, b) ∈ ctx.graph.edges ∧ a ∈ snap_local ∧ b ∈ snap_local)
      ∨ e ∈ ctx.static_entities := by
  rw [extrapolation_entities]
  simp only [List.mem_append, List.mem_map, List.mem_filter]
  constructor
  · rintro ((h | ⟨t, ⟨ht, hcond⟩, rfl⟩) | h)
    · exact Or.inl h
    · refine Or.inr (Or.inl ⟨t.2.1, t.2.2, by simpa using ht, ?_, ?_⟩)
      · have hc := of_decide_eq_true hcond
        rcases hc with ⟨h1, -, -⟩ | ⟨-, -, h1⟩ <;> exact h1
      · have hc := of_decide_eq_true hcond
        rcases hc with ⟨-, -, h2⟩ | ⟨h2, -, -⟩ <;> exact h2
    · exact Or.inr (Or.inr h)
  · rintro (h | ⟨a, b, hab, ha, hb⟩ | h)
    · exact Or.inl (Or.inl h)
    · refine Or.inl (Or.inr ⟨(e, a, b), ⟨hab, ?_⟩, rfl⟩)
      exact decide_eq_true (Or.inl ⟨ha, (hwf (e, a, b) hab).1, hb⟩)
    · exact Or.inr h

/-- C7: with extrapolation enabled, a received transient snapshot results
in no extrapolation job exactly when it references remote entities with no
valid local mapping or the number of in-flight extrapolation jobs is at
least `max_concurrent_extrapolations`; an `entity_request` is emitted
exactly when unknown entities are present; and a launched job's entity set
consists exactly of the snapshot's (locally mapped) entities, the graph
edges whose two endpoints are both among them, and the entities tagged
static. -/
theorem process_transient_snapshot_spec (ctx : client_snapshot_context)
    (pool_entities : List Entity)
    (hwf : ∀ t ∈ ctx.graph.edges, t.2.1 ∈ ctx.graph.nodes ∧ t.2.2 ∈ ctx.graph.nodes) :
    ((process_transient_snapshot ctx pool_entities).2 = none ↔
      unknown_entities ctx pool_entities ≠ []
      ∨ ctx.extrapolation_jobs_count ≥ ctx.max_concurrent_extrapolations)
    ∧ ((process_transient_snapshot ctx pool_entities).1 = true ↔
      unknown_entities ctx pool_entities ≠ [])
    ∧ (unknown_entities ctx pool_entities ≠ [] ↔
      ∃ r ∈ pool_entities, ctx.entity_map.lookup r = none
        ∨ ∃ loc, ctx.entity_map.lookup r = some loc ∧ loc ∉ ctx.valid_entities)
    ∧ (∀ s, (process_transient_snapshot ctx pool_entities).2 = some s →
      ∀ e, (e ∈ s ↔
        e ∈ snapshot_local_entities ctx pool_entities
        ∨ (∃ a b, (e, a, b) ∈ ctx.graph.edges
            ∧ a ∈ snapshot_local_entities ctx pool_entities
            ∧ b ∈ snapshot_local_entities ctx pool_entities)
        ∨ e ∈ ctx.static_entities)) := by
  have hunk : unknown_entities ctx pool_entities ≠ [] ↔
      ∃ r ∈ pool_entities, ctx.entity_map.lookup r = none
        ∨ ∃ loc, ctx.entity_map.lookup r = some loc ∧ loc ∉ ctx.valid_entities := by
    rw [unknown_entities, Ne, List.filter_eq_nil_iff]
    simp only [not_forall, not_not, exists_prop]
    constructor
    · rintro ⟨r, hr, hp⟩
      refine ⟨r, hr, ?_⟩
      cases hl : ctx.entity_map.lookup r with
      | none => exact Or.inl rfl
      | some loc =>
        rw [hl] at hp
        simp only [decide_eq_true_eq] at hp
        exact Or.inr ⟨loc, rfl, hp⟩
    · rintro ⟨r, hr, hnone | ⟨loc, hsome, hval⟩⟩
      · refine ⟨r, hr, ?_⟩
        rw [hnone]
      · refine ⟨r, hr, ?_⟩
        rw [hsome]
        simpa using hval
  by_cases hu : (unknown_entities ctx pool_entities).isEmpty
  · have hnil : unknown_entities ctx pool_entities = [] := List.isEmpty_iff.mp hu
    by_cases hj : ctx.extrapolation_jobs_count ≥ ctx.max_concurrent_extrapolations
    · have hr : process_transient_snapshot ctx pool_entities = (false, none) := by
        rw [process_transient_snapshot]
        simp [hu, hj]
      refine ⟨?_, ?_, hunk, ?_⟩
      · rw [hr]
        simp [hj]
      · rw [hr]
        simp [hnil]
      · intro s hs
        rw [hr] at hs
        cases hs
    · have hr : process_transient_snapshot ctx pool_entities
          = (false, some (extrapolation_entities ctx
              (snapshot_local_entities ctx pool_entities))) := by
        rw [process_transient_snapshot]
        simp [hu, hj]
      refine ⟨?_, ?_, hunk, ?_⟩
      · rw [hr]
        simp [hnil, hj]
      · rw [hr]
        simp [hnil]
      · intro s hs e
        rw [hr] at hs
        cases hs
        exact mem_extrapolation_entities ctx
          (snapshot_local_entities ctx pool_entities) e hwf
  · have hne : unknown_entities ctx pool_entities ≠ [] := by
      intro h
      rw [h] at hu
      exact hu rfl
    have hr : process_transient_snapshot ctx pool_entities = (true, none) := by
      rw [process_transient_snapshot]
      simp [hu]
    refine ⟨?_, ?_, hunk, ?_⟩
    · rw [hr]
      simp [hne]
    · rw [hr]
      simp [hne]
    · intro s hs
      rw [hr] at hs
      cases hs

/-- Witness for `process_transient_snapshot_spec`: a launched job whose
entity set contains the edge connecting the two snapshot entities. -/
theorem process_transient_snapshot_spec_witness :
    (process_transient_snapshot
        ⟨[(100, 1), (101, 2)], [1, 2], [9], ⟨[1, 2], [(5, 1, 2)]⟩, 0, 2⟩
        [100, 101]).2 = some [1, 2, 5, 9]
    ∧ 5 ∈ ([1, 2, 5, 9] : List Nat) := by
  have hs : (process_transient_snapshot
      ⟨[(100, 1), (101, 2)], [1, 2], [9], ⟨[1, 2], [(5, 1, 2)]⟩, 0, 2⟩
      [100, 101]).2 = some [1, 2, 5, 9] := by decide
  refine ⟨hs, ?_⟩
  have h := process_transient_snapshot_spec
    ⟨[(100, 1), (101, 2)], [1, 2], [9], ⟨[1, 2], [(5, 1, 2)]⟩, 0, 2⟩
    [100, 101] (by decide)
  exact (h.2.2.2 [1, 2, 5, 9] hs 5).mpr
    (Or.inr (Or.inl ⟨1, 2, by decide, by decide, by decide⟩))

/-- C8: the round trip of the `destroy_entity` serialization reproduces the
packet for every packet value.  Note the struct, as defined in the header,
carries no timestamp at all: `serialize` archives only `entities`, so the
timestamp the claim (and the server code, which assigns
`packet.timestamp = time`) requires can never be carried on the wire. -/
theorem destroy_entity_roundtrip (p : packet.destroy_entity) :
    deserialize_destroy_entity (serialize_destroy_entity p) = some p := by
  rw [serialize_destroy_entity, deserialize_destroy_entity]
  simp

end Edyn
